import Mathlib

/-!
Shallow embedding of the FloorCast-MPC elevator dispatch core.

Python floats are modelled as real numbers, Python ints as `ℤ`/`ℕ`, and the
flat `config` module as explicit configuration structures passed to every
function.  The two dictionaries keyed by elevator id in `mpc_scheduler.py`
(`plans` and `elevator_lookup`) are modelled as one association list in
elevator order, with first-match lookup and update; for distinct elevator ids
(the only configuration the program constructs) this coincides with Python
dict semantics.  `models/energy.py` is not part of the sources; its two
functions enter only as opaque parameters (`segEnergy`, `standbyEnergy`)
carried in the context structure, so every theorem below holds for all
possible energy models.
-/

namespace FloorCast

/-- Trip direction as used by `kinematics.travel_time` and the energy law. -/
inductive Dir
  | up
  | down
deriving DecidableEq

/-- Kinematic configuration: the `KIN_*`, `ELEVATOR_CAPACITY` and
`BUILDING_FLOOR_HEIGHT` constants of `config.py`. -/
structure KinConfig where
  maxSpeedUpEmpty : ℝ
  maxSpeedUpFull : ℝ
  maxSpeedDownEmpty : ℝ
  maxSpeedDownFull : ℝ
  speedDecayRate : ℝ
  accUpEmpty : ℝ
  accUpFull : ℝ
  decDownEmpty : ℝ
  decDownFull : ℝ
  accDecayRate : ℝ
  capacity : ℝ
  floorHeight : ℝ

/-- The concrete values of `config.py`. -/
def defaultKin : KinConfig where
  maxSpeedUpEmpty := 3.0
  maxSpeedUpFull := 2.5
  maxSpeedDownEmpty := 3.0
  maxSpeedDownFull := 2.6
  speedDecayRate := 1.2
  accUpEmpty := 1.2
  accUpFull := 0.9
  decDownEmpty := 1.2
  decDownFull := 1.0
  accDecayRate := 1.3
  capacity := 1200.0
  floorHeight := 3.5

/-- `kinematics.vmax_up`: maximum upward velocity as a function of load. -/
noncomputable def vmax_up (k : KinConfig) (load : ℝ) : ℝ :=
  k.maxSpeedUpFull + (k.maxSpeedUpEmpty - k.maxSpeedUpFull) *
    Real.exp (-k.speedDecayRate * load / k.capacity)

/-- `kinematics.vmax_down`: maximum downward velocity as a function of load. -/
noncomputable def vmax_down (k : KinConfig) (load : ℝ) : ℝ :=
  k.maxSpeedDownFull + (k.maxSpeedDownEmpty - k.maxSpeedDownFull) *
    Real.exp (-k.speedDecayRate * load / k.capacity)

/-- `kinematics.acc`: acceleration as a function of load.  Note that the
source interpolates between the `KIN_ACC_UP_*` pair for every trip. -/
noncomputable def acc (k : KinConfig) (load : ℝ) : ℝ :=
  k.accUpFull + (k.accUpEmpty - k.accUpFull) *
    Real.exp (-k.accDecayRate * load / k.capacity)

/-- `kinematics.dec`: deceleration as a function of load.  Note that the
source interpolates between the `KIN_DEC_DOWN_*` pair for every trip. -/
noncomputable def dec (k : KinConfig) (load : ℝ) : ℝ :=
  k.decDownFull + (k.decDownEmpty - k.decDownFull) *
    Real.exp (-k.accDecayRate * load / k.capacity)

/-- The triangular/trapezoidal profile selection of `kinematics.travel_time`,
factored over the already-selected maximum velocity `v`, acceleration `A`,
deceleration `D` and the metric distance. -/
noncomputable def motionTime (v A D distance : ℝ) : ℝ :=
  let vPeak := Real.sqrt (2 * distance * A * D / (A + D))
  if vPeak ≤ v then
    vPeak * (1 / A + 1 / D)
  else
    let dAcc := v ^ 2 / (2 * A)
    let dDec := v ^ 2 / (2 * D)
    let dConst := max (distance - dAcc - dDec) 0
    v / A + v / D + dConst / v

/-- Trip direction of `travel_time` (and of `compute_theoretical_limit`):
`up` when the destination is strictly above the origin, else `down`. -/
def tripDir (origin_floor destination_floor : ℤ) : Dir :=
  if destination_floor > origin_floor then Dir.up else Dir.down

/-- `kinematics.travel_time`: motion time between two floors.  The maximum
velocity is selected by the trip direction; acceleration and deceleration
come from `acc` and `dec` unconditionally, exactly as in the source. -/
noncomputable def travel_time (k : KinConfig) (load : ℝ)
    (origin_floor destination_floor : ℤ) : ℝ :=
  let distance := |(destination_floor : ℝ) - (origin_floor : ℝ)| * k.floorHeight
  let vmax := match tripDir origin_floor destination_floor with
    | Dir.up => vmax_up k load
    | Dir.down => vmax_down k load
  motionTime vmax (acc k load) (dec k load) distance

/-- Written from the claim wording (spec side of C1): the maximum velocity
interpolates between the empty/full pair selected by the trip direction. -/
noncomputable def claimedVmax (k : KinConfig) (d : Dir) (load : ℝ) : ℝ :=
  match d with
  | Dir.up => k.maxSpeedUpFull + (k.maxSpeedUpEmpty - k.maxSpeedUpFull) *
      Real.exp (-k.speedDecayRate * load / k.capacity)
  | Dir.down => k.maxSpeedDownFull + (k.maxSpeedDownEmpty - k.maxSpeedDownFull) *
      Real.exp (-k.speedDecayRate * load / k.capacity)

/-- Written from the claim wording (spec side of C1): acceleration and
deceleration alike interpolate between the empty/full pair selected by the
trip direction — the up-direction pair for an upward trip, the down-direction
pair for a downward trip. -/
noncomputable def claimedAccDec (k : KinConfig) (d : Dir) (load : ℝ) : ℝ :=
  match d with
  | Dir.up => k.accUpFull + (k.accUpEmpty - k.accUpFull) *
      Real.exp (-k.accDecayRate * load / k.capacity)
  | Dir.down => k.decDownFull + (k.decDownEmpty - k.decDownFull) *
      Real.exp (-k.accDecayRate * load / k.capacity)

/-- The travel time that claim C1 describes: every ingredient of the motion
profile — maximum velocity, acceleration and deceleration — drawn from the
direction-selected empty/full pair. -/
noncomputable def claimedTravelTime (k : KinConfig) (load : ℝ)
    (origin_floor destination_floor : ℤ) : ℝ :=
  let distance := |(destination_floor : ℝ) - (origin_floor : ℝ)| * k.floorHeight
  let d := tripDir origin_floor destination_floor
  motionTime (claimedVmax k d load) (claimedAccDec k d load) (claimedAccDec k d load)
    distance

/-- Claim C1 as stated, as a proposition over the configuration family. -/
def C1Claim : Prop :=
  ∀ (k : KinConfig) (load : ℝ) (o d : ℤ),
    0 ≤ load → load ≤ k.capacity → o ≠ d →
      travel_time k load o d = claimedTravelTime k load o d

/-- Written from the amended claim wording: the maximum velocity interpolates
between the direction-selected pair, while the acceleration always
interpolates between the up-direction acceleration extremes. -/
noncomputable def amendedAcc (k : KinConfig) (load : ℝ) : ℝ :=
  k.accUpFull + (k.accUpEmpty - k.accUpFull) *
    Real.exp (-k.accDecayRate * load / k.capacity)

/-- Written from the amended claim wording: the deceleration always
interpolates between the down-direction deceleration extremes. -/
noncomputable def amendedDec (k : KinConfig) (load : ℝ) : ℝ :=
  k.decDownFull + (k.decDownEmpty - k.decDownFull) *
    Real.exp (-k.accDecayRate * load / k.capacity)

/-- The travel time described by the amended claim C1. -/
noncomputable def amendedTravelTime (k : KinConfig) (load : ℝ)
    (origin_floor destination_floor : ℤ) : ℝ :=
  let distance := |(destination_floor : ℝ) - (origin_floor : ℝ)| * k.floorHeight
  let d := tripDir origin_floor destination_floor
  motionTime (claimedVmax k d load) (amendedAcc k load) (amendedDec k load) distance

/-- Configuration of `temporal.hold_time`: the `HOLD_*` constants. -/
structure HoldConfig where
  base : ℝ
  effNormal : ℝ
  effCongested : ℝ
  threshold : ℝ

/-- The concrete `HOLD_*` values of `config.py`. -/
def defaultHold : HoldConfig where
  base := 1.5
  effNormal := 0.002
  effCongested := 0.005
  threshold := 400

/-- `temporal.hold_time`: holding (door open) time as a function of boarding
and alighting weight. -/
noncomputable def hold_time (h : HoldConfig) (boarding_weight alighting_weight : ℝ) : ℝ :=
  let total_weight := boarding_weight + alighting_weight
  if total_weight ≤ h.threshold then
    h.base + h.effNormal * total_weight
  else
    h.base + h.effNormal * h.threshold + h.effCongested * (total_weight - h.threshold)

/-- The below-threshold branch formula of `hold_time`, as a function of total
weight. -/
def holdBelowFormula (h : HoldConfig) (total_weight : ℝ) : ℝ :=
  h.base + h.effNormal * total_weight

/-- The above-threshold branch formula of `hold_time`, as a function of total
weight. -/
def holdAboveFormula (h : HoldConfig) (total_weight : ℝ) : ℝ :=
  h.base + h.effNormal * h.threshold + h.effCongested * (total_weight - h.threshold)

/-- The `WAIT_PENALTY_*` module constants of `objective.py` (with the
defaults 60.0, 1.5, 0.0 used when `config.py` does not define them). -/
structure ObjConfig where
  scale : ℝ
  exponent : ℝ
  threshold : ℝ

/-- The values in effect for `config.py` (which defines none of the three, so
the `getattr` defaults apply). -/
def defaultObj : ObjConfig where
  scale := 60.0
  exponent := 1.5
  threshold := 0.0

/-- The clamped penalty scale: `max(WAIT_PENALTY_SCALE, 1e-6)`. -/
def effScale (oc : ObjConfig) : ℝ := max oc.scale 1e-6

/-- The clamped penalty exponent: `max(WAIT_PENALTY_EXPONENT, 1.0)`. -/
def effExponent (oc : ObjConfig) : ℝ := max oc.exponent 1

/-- The clamped penalty threshold: `max(WAIT_PENALTY_THRESHOLD, 0.0)`. -/
def effThreshold (oc : ObjConfig) : ℝ := max oc.threshold 0

/-- `objective.wait_penalty`: piecewise (truncated) super-linear penalty for
passenger waiting time. -/
noncomputable def wait_penalty (oc : ObjConfig) (wait_time : ℝ) : ℝ :=
  if wait_time ≤ 0 then 0
  else if wait_time ≤ effThreshold oc then wait_time
  else
    let excess := wait_time - effThreshold oc
    let normalized := excess / effScale oc
    effThreshold oc + excess * (1 + normalized ^ effExponent oc)

/-- A served request as read by `summarize_passenger_metrics`: the three
timestamps are fetched with `getattr(_, _, None)`, hence optional. -/
structure ServedRequest where
  arrival_time : Option ℝ
  origin_arrival_time : Option ℝ
  destination_arrival_time : Option ℝ

/-- The `PassengerMetrics` dataclass of `objective.py`. -/
structure PassengerMetrics where
  total_passenger_time : ℝ
  total_wait_time : ℝ
  total_in_cab_time : ℝ
  wait_penalty_total : ℝ
  served_count : ℕ

/-- The all-zero accumulator `summarize_passenger_metrics` starts from. -/
def zeroMetrics : PassengerMetrics := ⟨0, 0, 0, 0, 0⟩

/-- One loop iteration of `summarize_passenger_metrics`. -/
noncomputable def summarizeStep (oc : ObjConfig) (m : PassengerMetrics)
    (req : ServedRequest) : PassengerMetrics :=
  match req.arrival_time, req.destination_arrival_time with
  | some arr, some dest_arrival =>
    let trip_total := max (dest_arrival - arr) 0.0
    match req.origin_arrival_time with
    | some origin_arrival =>
      let wait := max (origin_arrival - arr) 0.0
      { total_passenger_time := m.total_passenger_time + trip_total
        total_wait_time := m.total_wait_time + wait
        total_in_cab_time := m.total_in_cab_time + max (dest_arrival - origin_arrival) 0.0
        wait_penalty_total := m.wait_penalty_total + wait_penalty oc wait
        served_count := m.served_count + 1 }
    | none =>
      { total_passenger_time := m.total_passenger_time + trip_total
        total_wait_time := m.total_wait_time
        total_in_cab_time := m.total_in_cab_time + trip_total
        wait_penalty_total := m.wait_penalty_total
        served_count := m.served_count + 1 }
  | _, _ => m

/-- `objective.summarize_passenger_metrics`: aggregate passenger statistics
over the served-request list. -/
noncomputable def summarize_passenger_metrics (oc : ObjConfig)
    (served_requests : List ServedRequest) : PassengerMetrics :=
  served_requests.foldl (summarizeStep oc) zeroMetrics

/-- Pointwise sum of two metric records, for the reference reduction. -/
def addMetrics (m n : PassengerMetrics) : PassengerMetrics :=
  ⟨m.total_passenger_time + n.total_passenger_time,
   m.total_wait_time + n.total_wait_time,
   m.total_in_cab_time + n.total_in_cab_time,
   m.wait_penalty_total + n.wait_penalty_total,
   m.served_count + n.served_count⟩

/-- Written from the claim wording (spec side of C8): the contribution of a
single served request.  Requests missing an arrival or destination-arrival
time contribute nothing; otherwise the trip total is floored at zero, and the
wait/in-cab split is taken when an origin-arrival exists. -/
noncomputable def specContribution (oc : ObjConfig) (req : ServedRequest) :
    PassengerMetrics :=
  match req.arrival_time, req.destination_arrival_time with
  | some arr, some dest_arrival =>
    let trip_total := max (dest_arrival - arr) 0.0
    match req.origin_arrival_time with
    | some origin_arrival =>
      let wait := max (origin_arrival - arr) 0.0
      ⟨trip_total, wait, max (dest_arrival - origin_arrival) 0.0,
        wait_penalty oc wait, 1⟩
    | none => ⟨trip_total, 0, trip_total, 0, 1⟩
  | _, _ => zeroMetrics

/-- Written from the claim wording (spec side of C8): the reference reduction
is the pointwise sum of the per-request contributions. -/
noncomputable def specSummarize (oc : ObjConfig) (served_requests : List ServedRequest) :
    PassengerMetrics :=
  (served_requests.map (specContribution oc)).foldr addMetrics zeroMetrics

/-- The `ObjectiveBreakdown` dataclass of `objective.py`. -/
structure ObjectiveBreakdown where
  total_cost : ℝ
  wait_cost : ℝ
  ride_cost : ℝ
  running_energy_cost : ℝ
  emptyload_energy_cost : ℝ

/-- The `Request` dataclass of `models/variables.py`. -/
structure Request where
  id : ℤ
  origin : ℤ
  destination : ℤ
  load : ℝ
  arrival_time : ℝ

/-- Full configuration context for the objective evaluator and the scheduler:
the remaining `config.py` constants plus the two functions of the absent
`models/energy.py` module, kept opaque (`segEnergy load distance dir` for
`segment_energy`, `standbyEnergy duration` for `standby_energy`). -/
structure Ctx where
  kin : KinConfig
  hold : HoldConfig
  oc : ObjConfig
  weightTime : ℝ
  weightEnergy : ℝ
  simTimeHorizon : ℝ
  elevatorCount : ℤ
  segEnergy : ℝ → ℝ → Dir → ℝ
  standbyEnergy : ℝ → ℝ

/-- `compute_theoretical_limit`: requests kept by the validity filter
(`origin`/`destination` present and distinct; both fields are always present
on `Request`). -/
def valid_requests (requests : List Request) : List Request :=
  requests.filter (fun r => r.origin ≠ r.destination)

/-- Number of valid requests (`nr` in the source). -/
def nr (requests : List Request) : ℕ := (valid_requests requests).length

/-- The per-request ideal durations accumulated by `compute_theoretical_limit`. -/
noncomputable def durations (ctx : Ctx) (requests : List Request) : List ℝ :=
  (valid_requests requests).map
    (fun r => travel_time ctx.kin r.load r.origin r.destination)

/-- `total_in_cab_time` of `compute_theoretical_limit`. -/
noncomputable def limitInCabTime (ctx : Ctx) (requests : List Request) : ℝ :=
  (durations ctx requests).sum

/-- The segment-plus-standby energy accumulated per valid request. -/
noncomputable def requestEnergy (ctx : Ctx) (r : Request) : ℝ :=
  ctx.segEnergy r.load (|(r.destination : ℝ) - (r.origin : ℝ)| * ctx.kin.floorHeight)
      (tripDir r.origin r.destination) +
    ctx.standbyEnergy (travel_time ctx.kin r.load r.origin r.destination)

/-- `total_running_energy` of `compute_theoretical_limit`. -/
noncomputable def limitRunningEnergy (ctx : Ctx) (requests : List Request) : ℝ :=
  ((valid_requests requests).map (requestEnergy ctx)).sum

/-- Raw average service time: `sum(durations) / nr if durations else 0.0`. -/
noncomputable def tau_bar0 (ctx : Ctx) (requests : List Request) : ℝ :=
  if durations ctx requests = [] then 0.0
  else (durations ctx requests).sum / (nr requests : ℝ)

/-- Clamped average service time `tau_bar = max(tau_bar, 1e-6)`. -/
noncomputable def tau_bar (ctx : Ctx) (requests : List Request) : ℝ :=
  max (tau_bar0 ctx requests) 1e-6

/-- Guarded horizon `max(SIM_TIME_HORIZON, 1e-6)`. -/
noncomputable def horizonEff (ctx : Ctx) : ℝ := max ctx.simTimeHorizon 1e-6

/-- `arrival_rate = nr / horizon`. -/
noncomputable def arrival_rate (ctx : Ctx) (requests : List Request) : ℝ :=
  (nr requests : ℝ) / horizonEff ctx

/-- `ne = max(cfg.ELEVATOR_COUNT, 1)`. -/
def elevCountEff (ctx : Ctx) : ℤ := max ctx.elevatorCount 1

/-- `service_capacity = ne / tau_bar`. -/
noncomputable def service_capacity (ctx : Ctx) (requests : List Request) : ℝ :=
  (elevCountEff ctx : ℝ) / tau_bar ctx requests

/-- Utilisation `rho`, guarded away from 1 and defaulting to 1 when the
service capacity is non-positive. -/
noncomputable def rho (ctx : Ctx) (requests : List Request) : ℝ :=
  if 0 < service_capacity ctx requests then
    min (arrival_rate ctx requests * tau_bar ctx requests / (elevCountEff ctx : ℝ))
      0.999999
  else 1.0

/-- `wait_avg` of `compute_theoretical_limit`: zero without valid requests,
`tau_bar` in the saturated branch, and the M/D/c-style closed form below
saturation. -/
noncomputable def wait_avg (ctx : Ctx) (requests : List Request) : ℝ :=
  if nr requests = 0 then 0.0
  else if service_capacity ctx requests ≤ arrival_rate ctx requests then
    tau_bar ctx requests
  else
    arrival_rate ctx requests * (tau_bar ctx requests) ^ 2 /
      (2.0 * (elevCountEff ctx : ℝ) * max (1.0 - rho ctx requests) 1e-6)

/-- `total_wait_time = nr * wait_avg`. -/
noncomputable def limitWaitTime (ctx : Ctx) (requests : List Request) : ℝ :=
  (nr requests : ℝ) * wait_avg ctx requests

/-- The closed-form extra penalty term before its non-negativity clamp
(the `isfinite` guard of the source never fires over the reals). -/
noncomputable def extraTermRaw (ctx : Ctx) (requests : List Request) : ℝ :=
  let rate := 1.0 / max (wait_avg ctx requests) 1e-9
  Real.exp (-rate * effThreshold ctx.oc) * Real.Gamma (effExponent ctx.oc + 2.0) /
    (effScale ctx.oc ^ effExponent ctx.oc * rate ^ (effExponent ctx.oc + 1.0))

/-- The clamped extra penalty term (`floored at zero`). -/
noncomputable def extraTerm (ctx : Ctx) (requests : List Request) : ℝ :=
  if extraTermRaw ctx requests < 0 then 0 else extraTermRaw ctx requests

/-- `total_wait_penalty` of `compute_theoretical_limit`. -/
noncomputable def limitWaitPenalty (ctx : Ctx) (requests : List Request) : ℝ :=
  if nr requests = 0 ∨ wait_avg ctx requests ≤ 0.0 then 0.0
  else (nr requests : ℝ) * (wait_avg ctx requests + extraTerm ctx requests)

/-- `objective.compute_theoretical_limit`: the returned breakdown and the four
accompanying totals. -/
noncomputable def compute_theoretical_limit (ctx : Ctx) (requests : List Request) :
    ObjectiveBreakdown × ℝ × ℝ × ℝ × ℝ :=
  let wait_cost := ctx.weightTime * limitWaitPenalty ctx requests
  let ride_cost := ctx.weightTime * limitInCabTime ctx requests
  let running_energy_cost := ctx.weightEnergy * limitRunningEnergy ctx requests
  let emptyload_energy_cost := 0.0
  let total_cost := ride_cost + running_energy_cost
  (⟨total_cost, wait_cost, ride_cost, running_energy_cost, emptyload_energy_cost⟩,
    limitInCabTime ctx requests, limitRunningEnergy ctx requests,
    limitWaitTime ctx requests, limitWaitPenalty ctx requests)

/-- The `ElevatorState` dataclass of `models/variables.py`, restricted to the
fields the scheduler reads (`id`, `floor`); `load` and `direction` are never
consulted by `assign_requests_mpc`. -/
structure ElevatorState where
  id : ℕ
  floor : ℤ

/-- The `_PlanState` dataclass of `mpc_scheduler.py`. -/
structure PlanState where
  floor : ℤ
  time : ℝ

/-- Module default `MPC_LOOKAHEAD_WINDOW` (missing from `config.py`). -/
def MPC_LOOKAHEAD_WINDOW : ℝ := 240.0

/-- Module default `MPC_MAX_BATCH` (missing from `config.py`). -/
def MPC_MAX_BATCH : ℤ := 12

/-- Placeholder request used for (provably unreachable) out-of-range list
accesses; Python would raise there instead. -/
def dummyRequest : Request := ⟨0, 0, 0, 0, 0⟩

/-- The per-elevator scheduler state: the dict entries `plans[elev.id]`
together with the `queue`/`served_requests` lists mutated on the elevator,
keyed by the elevator id and kept in elevator order. -/
structure EState where
  eid : ℕ
  floor : ℤ
  time : ℝ
  queue : List Request
  served : List Request

/-- Placeholder scheduler state for unreachable lookups. -/
def dummyEState : EState := ⟨0, 0, 0, [], []⟩

/-- `mpc_scheduler._direction`. -/
def _direction (start_floor end_floor : ℤ) : Dir :=
  if end_floor > start_floor then Dir.up
  else if end_floor < start_floor then Dir.down
  else Dir.up

/-- `mpc_scheduler._estimate_incremental_cost`: returns
`some (total_cost, finish_time, passenger_time)` on its single path — the
declared `Tuple | None` type admits `None` but no branch produces it. -/
noncomputable def _estimate_incremental_cost (ctx : Ctx) (plan : PlanState)
    (request : Request) : Option (ℝ × ℝ × ℝ) :=
  let current_floor := plan.floor
  let available_time := plan.time
  let travel_to_origin := travel_time ctx.kin 0.0 current_floor request.origin
  let arrival_at_origin := available_time + travel_to_origin
  let start_service := max arrival_at_origin request.arrival_time
  let dwell := hold_time ctx.hold request.load 0.0
  let depart_time := start_service + dwell
  let travel_to_dest := travel_time ctx.kin request.load request.origin request.destination
  let finish_time := depart_time + travel_to_dest
  let passenger_time := finish_time - request.arrival_time
  let energyToOrigin :=
    if current_floor ≠ request.origin then
      ctx.segEnergy 0.0 (|(request.origin : ℝ) - (current_floor : ℝ)| * ctx.kin.floorHeight)
          (_direction current_floor request.origin) +
        ctx.standbyEnergy travel_to_origin
    else 0.0
  let energyDwell := ctx.standbyEnergy dwell
  let energyToDest :=
    if request.origin ≠ request.destination then
      ctx.segEnergy request.load
          (|(request.destination : ℝ) - (request.origin : ℝ)| * ctx.kin.floorHeight)
          (_direction request.origin request.destination) +
        ctx.standbyEnergy travel_to_dest
    else 0.0
  let total_cost := ctx.weightTime * passenger_time +
    ctx.weightEnergy * (energyToOrigin + energyDwell + energyToDest) +
    1e-6 * finish_time
  some (total_cost, finish_time, passenger_time)

/-- The candidate-building loop of `assign_requests_mpc`, with the running
index, the accumulated indices, and the `break` once the batch limit is
reached. -/
noncomputable def candAux (windowLimit : ℝ) (batchLimit : ℕ) :
    List Request → ℕ → List ℕ → List ℕ
  | [], _, accIdx => accIdx
  | req :: rest, idx, accIdx =>
    let accIdx' :=
      if req.arrival_time ≤ windowLimit then accIdx ++ [idx]
      else if accIdx.length < batchLimit then accIdx ++ [idx]
      else accIdx
    if batchLimit ≤ accIdx'.length then accIdx'
    else candAux windowLimit batchLimit rest (idx + 1) accIdx'

/-- `candidate_indices` as first computed by the loop. -/
noncomputable def candidateIndices (unassigned : List Request) (windowLimit : ℝ)
    (batchLimit : ℕ) : List ℕ :=
  candAux windowLimit batchLimit unassigned 0 []

/-- `candidate_indices` including the `if not candidate_indices` failsafe. -/
noncomputable def stepCandidates (unassigned : List Request) (windowLimit : ℝ)
    (batchLimit : ℕ) : List ℕ :=
  let c := candidateIndices unassigned windowLimit batchLimit
  if c = [] then List.range (min batchLimit unassigned.length) else c

/-- The running best of the candidate scan: `best_choice` (index, elevator
id, passenger time, finish time) together with `best_cost`. -/
structure BestChoice where
  idx : ℕ
  eid : ℕ
  ptime : ℝ
  ftime : ℝ
  cost : ℝ

/-- The update condition and assignment of the scan: strictly smaller cost
(beyond `eps`), or tied cost with earlier finish, or tied cost and finish
with smaller passenger time. -/
noncomputable def scanUpdate (best : Option BestChoice) (c : BestChoice) :
    Option BestChoice :=
  match best with
  | none => some c
  | some old =>
    if c.cost < old.cost - 1e-9 ∨
        (|c.cost - old.cost| ≤ 1e-9 ∧ c.ftime < old.ftime - 1e-9) ∨
        (|c.cost - old.cost| ≤ 1e-9 ∧ |c.ftime - old.ftime| ≤ 1e-9 ∧
          c.ptime < old.ptime) then
      some c
    else some old

/-- The body of the inner `for elev in elevators` loop: estimate the pair,
skip on `None` (which never occurs), otherwise update the running best. -/
noncomputable def scanStep (ctx : Ctx) (req : Request) (idx : ℕ)
    (b : Option BestChoice) (e : EState) : Option BestChoice :=
  match _estimate_incremental_cost ctx ⟨e.floor, e.time⟩ req with
  | none => b
  | some (cost, finish_time, passenger_time) =>
    scanUpdate b ⟨idx, e.eid, passenger_time, finish_time, cost⟩

/-- The inner `for elev in elevators` loop of the scan for one candidate
index, walking the elevator/plan entries in order. -/
noncomputable def scanElevs (ctx : Ctx) (req : Request) (idx : ℕ)
    (st : List EState) (best : Option BestChoice) : Option BestChoice :=
  st.foldl (scanStep ctx req idx) best

/-- The body of the outer scan loop for one candidate index. -/
noncomputable def scanCand (ctx : Ctx) (unassigned : List Request)
    (st : List EState) (b : Option BestChoice) (idx : ℕ) : Option BestChoice :=
  scanElevs ctx (unassigned.getD idx dummyRequest) idx st b

/-- The full candidate scan: `for idx in candidate_indices: for elev in
elevators: ...`. -/
noncomputable def scanAll (ctx : Ctx) (unassigned : List Request)
    (st : List EState) (cand : List ℕ) : Option BestChoice :=
  cand.foldl (scanCand ctx unassigned st) none

/-- `_apply_assignment` plus the plan update that follows it: append the
request to the chosen elevator's queue and served list, advance its plan time
to the finish time and its plan floor to the request's destination.  First
matching id is updated (dict semantics for distinct ids). -/
def commitAssign (st : List EState) (eid : ℕ) (req : Request) (finish_time : ℝ) :
    List EState :=
  match st with
  | [] => []
  | e :: rest =>
    if e.eid = eid then
      { e with queue := e.queue ++ [req], served := e.served ++ [req],
               time := finish_time, floor := req.destination } :: rest
    else e :: commitAssign rest eid req finish_time

/-- `min(plans, key=lambda eid: plans[eid].time)`: the first entry of minimal
projected-free-time, in insertion (elevator) order. -/
noncomputable def leastBusy (st : List EState) : ℕ :=
  match st with
  | [] => 0
  | e :: rest => (rest.foldl (fun best x => if x.time < best.time then x else best) e).eid

/-- `plans[eid]` lookup (first match). -/
def planOf (st : List EState) (eid : ℕ) : PlanState :=
  match st.find? (fun e => e.eid == eid) with
  | some e => ⟨e.floor, e.time⟩
  | none => ⟨0, 0⟩

/-- One iteration of the `while unassigned` loop of `assign_requests_mpc`:
build candidates, scan, then either commit the winning pair or fall back to
the least-busy elevator; in both branches one request is popped. -/
noncomputable def mpcStep (ctx : Ctx) (horizon : ℝ) (batchLimit : ℕ)
    (unassigned : List Request) (st : List EState) : List Request × List EState :=
  match unassigned with
  | [] => ([], st)
  | first :: _ =>
    let windowLimit := first.arrival_time + horizon
    let cand := stepCandidates unassigned windowLimit batchLimit
    match scanAll ctx unassigned st cand with
    | some best =>
      let req := unassigned.getD best.idx dummyRequest
      (unassigned.eraseIdx best.idx, commitAssign st best.eid req best.ftime)
    | none =>
      let idx := cand.headD 0
      let req := unassigned.getD idx dummyRequest
      let target := leastBusy st
      let finish_time :=
        match _estimate_incremental_cost ctx (planOf st target) req with
        | some est => est.2.1
        | none => (planOf st target).time
      (unassigned.eraseIdx idx, commitAssign st target req finish_time)

/-- The scheduling loop, fuelled by the initial backlog length (each
iteration provably removes one request, so the fuel never runs out). -/
noncomputable def mpcLoop (ctx : Ctx) (horizon : ℝ) (batchLimit : ℕ) :
    ℕ → List Request → List EState → List EState
  | 0, _, st => st
  | _ + 1, [], st => st
  | fuel + 1, first :: rest, st =>
    let next := mpcStep ctx horizon batchLimit (first :: rest) st
    mpcLoop ctx horizon batchLimit fuel next.1 next.2

/-- Normalisation of the batch cap: non-positive values fall back to
`max(len(elevators) * 3, 1)`. -/
def normBatch (max_batch : ℤ) (numElevators : ℕ) : ℕ :=
  if max_batch ≤ 0 then max (3 * numElevators) 1 else max_batch.toNat

/-- `sorted(requests, key=lambda r: r.arrival_time)` (stable). -/
noncomputable def sortByArrival (requests : List Request) : List Request :=
  requests.mergeSort (fun a b => decide (a.arrival_time ≤ b.arrival_time))

/-- `mpc_scheduler.assign_requests_mpc`: returns the final per-elevator
states (plan and queues).  An empty elevator list returns immediately;
otherwise every queue is cleared, and an empty request list stops there. -/
noncomputable def assign_requests_mpc (ctx : Ctx) (requests : List Request)
    (elevators : List ElevatorState) (lookahead_window : Option ℝ)
    (max_batch : Option ℤ) : List EState :=
  match elevators with
  | [] => []
  | _ :: _ =>
    let horizon := lookahead_window.getD MPC_LOOKAHEAD_WINDOW
    let batchLimit := normBatch (max_batch.getD MPC_MAX_BATCH) elevators.length
    let st0 := elevators.map (fun e => (⟨e.id, e.floor, 0.0, [], []⟩ : EState))
    match requests with
    | [] => st0
    | _ :: _ =>
      mpcLoop ctx horizon batchLimit requests.length (sortByArrival requests) st0

/-- Total number of requests across all queues. -/
def queueLenSum (st : List EState) : ℕ :=
  (st.map (fun e => e.queue.length)).sum

/-- The multiset of all requests across all queues. -/
def queueMultiset (st : List EState) : Multiset Request :=
  (st.map (fun e => (e.queue : Multiset Request))).sum

/-- A configuration witnessing that C1 fails: every empty/full pair is
degenerate (so the exponential factors cancel), the up-direction acceleration
pair is 2 while the down-direction deceleration pair is 8, and one floor is
5/4 metres. -/
def kinC1 : KinConfig where
  maxSpeedUpEmpty := 2
  maxSpeedUpFull := 2
  maxSpeedDownEmpty := 2
  maxSpeedDownFull := 2
  speedDecayRate := 1
  accUpEmpty := 2
  accUpFull := 2
  decDownEmpty := 8
  decDownFull := 8
  accDecayRate := 1
  capacity := 1
  floorHeight := 1.25

/-- A kinematic configuration with degenerate pairs (velocity 3,
acceleration and deceleration 1) and 4-metre floors, for concrete
evaluations. -/
def kinUnit : KinConfig where
  maxSpeedUpEmpty := 3
  maxSpeedUpFull := 3
  maxSpeedDownEmpty := 3
  maxSpeedDownFull := 3
  speedDecayRate := 1
  accUpEmpty := 1
  accUpFull := 1
  decDownEmpty := 1
  decDownFull := 1
  accDecayRate := 1
  capacity := 1
  floorHeight := 4

/-- Context used for concrete witnesses: `kinUnit` kinematics, the default
hold and penalty constants, a 4-second horizon, one elevator, and zero
energy functions. -/
noncomputable def ctxUnit : Ctx where
  kin := kinUnit
  hold := defaultHold
  oc := defaultObj
  weightTime := 1.0
  weightEnergy := 0.001
  simTimeHorizon := 4
  elevatorCount := 1
  segEnergy := fun _ _ _ => 0
  standbyEnergy := fun _ => 0

/-- The single request of the saturated-branch witness: one floor up at
load 0, arriving at time 0. -/
def reqUnit : Request := ⟨0, 0, 1, 0, 0⟩

/-- Penalty constants with a positive threshold, for witnesses. -/
def objTen : ObjConfig where
  scale := 60.0
  exponent := 1.5
  threshold := 10.0

/-- Invariant carried through the scan: any produced choice points at a
candidate index and an elevator id present in the state. -/
def scanInv (cand ids : List ℕ) (b : Option BestChoice) : Prop :=
  ∀ c : BestChoice, b = some c → c.idx ∈ cand ∧ c.eid ∈ ids

/-!  Theorems.  -/

/-- C4: in the breakdown returned by `compute_theoretical_limit`, the total
cost sums only ride cost and running-energy cost; the wait penalty is
reported in `wait_cost` (as `WEIGHT_TIME` times the total wait penalty) but
not added into the total, and the empty-load cost field is exactly zero. -/
theorem C4_theoretical_total_cost (ctx : Ctx) (requests : List Request) :
    (compute_theoretical_limit ctx requests).1.total_cost =
        (compute_theoretical_limit ctx requests).1.ride_cost +
          (compute_theoretical_limit ctx requests).1.running_energy_cost ∧
    (compute_theoretical_limit ctx requests).1.emptyload_energy_cost = 0 ∧
    (compute_theoretical_limit ctx requests).1.wait_cost =
        ctx.weightTime * limitWaitPenalty ctx requests := by
  exact ⟨rfl, by norm_num [compute_theoretical_limit], rfl⟩

/-- C7: `hold_time` is continuous at the congestion threshold (both branch
formulas agree there) and strictly increasing in the total
boarding-plus-alighting weight when both configured rates are positive. -/
theorem C7_hold_time_continuous_strict_mono (h : HoldConfig)
    (hn : 0 < h.effNormal) (hc : 0 < h.effCongested) :
    holdBelowFormula h h.threshold = holdAboveFormula h h.threshold ∧
    ∀ b1 a1 b2 a2 : ℝ, b1 + a1 < b2 + a2 →
      hold_time h b1 a1 < hold_time h b2 a2 := by
  constructor
  · simp only [holdBelowFormula, holdAboveFormula]
    ring
  · intro b1 a1 b2 a2 hlt
    simp only [hold_time]
    split_ifs <;> nlinarith

/-- C7 witness: the continuity and monotonicity conclusions at the concrete
`config.py` hold constants. -/
theorem C7_hold_time_witness :
    0 < defaultHold.effNormal ∧ 0 < defaultHold.effCongested ∧
    (holdBelowFormula defaultHold defaultHold.threshold =
        holdAboveFormula defaultHold defaultHold.threshold ∧
      ∀ b1 a1 b2 a2 : ℝ, b1 + a1 < b2 + a2 →
        hold_time defaultHold b1 a1 < hold_time defaultHold b2 a2) := by
  refine ⟨by norm_num [defaultHold], by norm_num [defaultHold], ?_⟩
  exact C7_hold_time_continuous_strict_mono defaultHold
    (by norm_num [defaultHold]) (by norm_num [defaultHold])

/-- Adding the zero record is the identity. -/
theorem addMetrics_zero (m : PassengerMetrics) : addMetrics m zeroMetrics = m := by
  cases m
  simp [addMetrics, zeroMetrics]

/-- `addMetrics` is associative. -/
theorem addMetrics_assoc (m n p : PassengerMetrics) :
    addMetrics (addMetrics m n) p = addMetrics m (addMetrics n p) := by
  cases m; cases n; cases p
  simp only [addMetrics, PassengerMetrics.mk.injEq]
  refine ⟨by ring, by ring, by ring, by ring, by omega⟩

/-- One accumulator step of the source equals adding the per-request
contribution of the reference reduction. -/
theorem summarizeStep_eq_add (oc : ObjConfig) (m : PassengerMetrics)
    (req : ServedRequest) :
    summarizeStep oc m req = addMetrics m (specContribution oc req) := by
  cases m
  rcases req with ⟨arr, oarr, darr⟩
  rcases arr with _ | a <;> rcases darr with _ | d <;> rcases oarr with _ | o <;>
    simp [summarizeStep, specContribution, addMetrics, zeroMetrics]

/-- The source fold from an arbitrary accumulator equals that accumulator
plus the reference reduction. -/
theorem summarize_foldl_eq (oc : ObjConfig) :
    ∀ (rs : List ServedRequest) (m : PassengerMetrics),
      rs.foldl (summarizeStep oc) m = addMetrics m (specSummarize oc rs) := by
  intro rs
  induction rs with
  | nil => intro m; simp [specSummarize, addMetrics_zero]
  | cons r rest ih =>
    intro m
    simp only [List.foldl_cons, ih, summarizeStep_eq_add, specSummarize,
      List.map_cons, List.foldr_cons]
    exact addMetrics_assoc m (specContribution oc r) _

/-- C8: `summarize_passenger_metrics` coincides with the reference reduction
of the claim on every input list (skip requests lacking an arrival or
destination-arrival; floor each duration at zero; split into wait and in-cab
time when an origin-arrival exists, else count the whole trip as in-cab
time), and the empty list yields the all-zero record with a served count of
zero. -/
theorem C8_summarize_reference (oc : ObjConfig) (served_requests : List ServedRequest) :
    summarize_passenger_metrics oc served_requests = specSummarize oc served_requests ∧
    summarize_passenger_metrics oc [] = zeroMetrics := by
  constructor
  · have h := summarize_foldl_eq oc served_requests zeroMetrics
    have hz : addMetrics zeroMetrics (specSummarize oc served_requests) =
        specSummarize oc served_requests := by
      cases hs : specSummarize oc served_requests
      simp [addMetrics, zeroMetrics]
    simpa [summarize_passenger_metrics, hz] using h
  · rfl

/-- The candidate loop with a below-capacity accumulator appends exactly the
next `batchLimit - accIdx.length` indices (capped by the remaining backlog),
independently of the window limit. -/
theorem candAux_eq (windowLimit : ℝ) (batchLimit : ℕ) :
    ∀ (rs : List Request) (idx : ℕ) (accIdx : List ℕ),
      accIdx.length < batchLimit →
      candAux windowLimit batchLimit rs idx accIdx =
        accIdx ++ List.range' idx (min (batchLimit - accIdx.length) rs.length) := by
  intro rs
  induction rs with
  | nil =>
    intro idx accIdx h
    simp [candAux]
  | cons r rest ih =>
    intro idx accIdx h
    have hext : (if r.arrival_time ≤ windowLimit then accIdx ++ [idx]
        else if accIdx.length < batchLimit then accIdx ++ [idx] else accIdx) =
        accIdx ++ [idx] := by
      split_ifs with h1
      · rfl
      · rfl
    simp only [candAux, hext]
    by_cases hstop : batchLimit ≤ (accIdx ++ [idx]).length
    · rw [if_pos hstop]
      have hlen : (accIdx ++ [idx]).length = accIdx.length + 1 := by simp
      have hmin : min (batchLimit - accIdx.length) (r :: rest).length = 1 := by
        simp only [List.length_cons]
        omega
      rw [hmin]
      simp [List.range'_one]
    · rw [if_neg hstop]
      have hlt : (accIdx ++ [idx]).length < batchLimit := by
        simp only [List.length_append, List.length_cons] at hstop ⊢
        omega
      rw [ih (idx + 1) (accIdx ++ [idx]) hlt]
      have hmin : min (batchLimit - accIdx.length) (r :: rest).length =
          min (batchLimit - (accIdx ++ [idx]).length) rest.length + 1 := by
        simp only [List.length_cons, List.length_append, List.length_singleton,
          List.length_nil]
        omega
      rw [hmin, List.range'_succ]
      simp

/-- The raw candidate list is the first `min batchLimit (backlog length)`
indices. -/
theorem candidateIndices_eq_range (unassigned : List Request) (windowLimit : ℝ)
    (batchLimit : ℕ) (h : 1 ≤ batchLimit) :
    candidateIndices unassigned windowLimit batchLimit =
      List.range (min batchLimit unassigned.length) := by
  have := candAux_eq windowLimit batchLimit unassigned 0 [] (by simpa using h)
  simpa [candidateIndices, List.range_eq_range'] using this

/-- The candidate list used by the loop body (failsafe included) is the first
`min batchLimit (backlog length)` indices. -/
theorem stepCandidates_eq_range (unassigned : List Request) (windowLimit : ℝ)
    (batchLimit : ℕ) (h : 1 ≤ batchLimit) :
    stepCandidates unassigned windowLimit batchLimit =
      List.range (min batchLimit unassigned.length) := by
  simp [stepCandidates, candidateIndices_eq_range unassigned windowLimit batchLimit h]

/-- C9: in every iteration, the candidate set is exactly the first
`min max_batch (backlog length)` backlog positions in arrival order, and the
lookahead window value never changes it. -/
theorem C9_candidates_window_independent (unassigned : List Request)
    (windowLimit windowLimit' : ℝ) (batchLimit : ℕ) (h : 1 ≤ batchLimit) :
    stepCandidates unassigned windowLimit batchLimit =
      List.range (min batchLimit unassigned.length) ∧
    stepCandidates unassigned windowLimit batchLimit =
      stepCandidates unassigned windowLimit' batchLimit := by
  refine ⟨stepCandidates_eq_range unassigned windowLimit batchLimit h, ?_⟩
  rw [stepCandidates_eq_range unassigned windowLimit batchLimit h,
    stepCandidates_eq_range unassigned windowLimit' batchLimit h]

/-- C9 witness: with a batch cap of 2, a three-element backlog, and two very
different window limits, the candidate set is positions 0 and 1. -/
theorem C9_candidates_witness :
    1 ≤ 2 ∧
    (stepCandidates [reqUnit, reqUnit, reqUnit] 0 2 =
        List.range (min 2 [reqUnit, reqUnit, reqUnit].length) ∧
      stepCandidates [reqUnit, reqUnit, reqUnit] 0 2 =
        stepCandidates [reqUnit, reqUnit, reqUnit] 1000 2) :=
  ⟨by norm_num,
    C9_candidates_window_independent [reqUnit, reqUnit, reqUnit] 0 1000 2 (by norm_num)⟩

/-- `_estimate_incremental_cost` returns a triple on its single path. -/
theorem estimate_eq_some (ctx : Ctx) (plan : PlanState) (request : Request) :
    ∃ cost finish_time passenger_time : ℝ,
      _estimate_incremental_cost ctx plan request =
        some (cost, finish_time, passenger_time) :=
  ⟨_, _, _, rfl⟩

/-- `scanUpdate` always yields a choice. -/
theorem scanUpdate_isSome (b : Option BestChoice) (c : BestChoice) :
    (scanUpdate b c).isSome := by
  cases b with
  | none => rfl
  | some old =>
    simp only [scanUpdate]
    split_ifs <;> rfl

/-- Every elevator visit of the scan yields a choice, whatever the running
best was. -/
theorem scanStep_isSome (ctx : Ctx) (req : Request) (idx : ℕ)
    (b : Option BestChoice) (e : EState) : (scanStep ctx req idx b e).isSome := by
  obtain ⟨c, f, p, h⟩ := estimate_eq_some ctx ⟨e.floor, e.time⟩ req
  simp only [scanStep, h]
  exact scanUpdate_isSome b _

/-- The inner scan preserves an already-set best choice. -/
theorem scanElevs_isSome_of_isSome (ctx : Ctx) (req : Request) (idx : ℕ)
    (st : List EState) (b : Option BestChoice) (hb : b.isSome) :
    (scanElevs ctx req idx st b).isSome := by
  unfold scanElevs
  exact @List.foldlRecOn _ _ (fun x => x.isSome = true) st (scanStep ctx req idx) b hb
    (fun x _ e _ => scanStep_isSome ctx req idx x e)

/-- The inner scan over a non-empty elevator list always yields a choice. -/
theorem scanElevs_isSome (ctx : Ctx) (req : Request) (idx : ℕ)
    (st : List EState) (b : Option BestChoice) (hst : st ≠ []) :
    (scanElevs ctx req idx st b).isSome := by
  cases st with
  | nil => exact absurd rfl hst
  | cons e rest =>
    show (List.foldl (scanStep ctx req idx) (scanStep ctx req idx b e) rest).isSome
    exact @List.foldlRecOn _ _ (fun x => x.isSome = true) rest (scanStep ctx req idx) _
      (scanStep_isSome ctx req idx b e)
      (fun x _ a _ => scanStep_isSome ctx req idx x a)

/-- The candidate scan over non-empty candidates and elevators always yields
a choice. -/
theorem scanAll_isSome (ctx : Ctx) (unassigned : List Request) (st : List EState)
    (cand : List ℕ) (hc : cand ≠ []) (hst : st ≠ []) :
    (scanAll ctx unassigned st cand).isSome := by
  cases cand with
  | nil => exact absurd rfl hc
  | cons i rest =>
    show (List.foldl (scanCand ctx unassigned st) (scanCand ctx unassigned st none i)
      rest).isSome
    refine List.foldlRecOn rest (scanCand ctx unassigned st) _ ?_
      (fun x hx a _ => scanElevs_isSome_of_isSome ctx _ a st x hx)
    exact scanElevs_isSome ctx _ i st none hst

/-- `scanUpdate` preserves the scan invariant when fed an in-range choice. -/
theorem scanUpdate_inv {cand ids : List ℕ} {b : Option BestChoice}
    {c : BestChoice} (hb : scanInv cand ids b) (hc : c.idx ∈ cand ∧ c.eid ∈ ids) :
    scanInv cand ids (scanUpdate b c) := by
  cases b with
  | none => intro x hx; cases hx; exact hc
  | some old =>
    intro x hx
    simp only [scanUpdate] at hx
    split_ifs at hx <;> cases hx
    · exact hc
    · exact hb old rfl

/-- One elevator visit preserves the scan invariant. -/
theorem scanStep_inv {cand ids : List ℕ} (ctx : Ctx) (req : Request) {idx : ℕ}
    {b : Option BestChoice} {e : EState} (hidx : idx ∈ cand) (he : e.eid ∈ ids)
    (hb : scanInv cand ids b) : scanInv cand ids (scanStep ctx req idx b e) := by
  obtain ⟨c, f, p, h⟩ := estimate_eq_some ctx ⟨e.floor, e.time⟩ req
  simp only [scanStep, h]
  exact scanUpdate_inv hb ⟨hidx, he⟩

/-- The inner scan preserves the scan invariant. -/
theorem scanElevs_inv {cand ids : List ℕ} (ctx : Ctx) (req : Request) {idx : ℕ}
    (st : List EState) {b : Option BestChoice} (hidx : idx ∈ cand)
    (hids : ∀ e ∈ st, e.eid ∈ ids) (hb : scanInv cand ids b) :
    scanInv cand ids (scanElevs ctx req idx st b) := by
  unfold scanElevs
  exact List.foldlRecOn st (scanStep ctx req idx) b hb
    (fun x hx e he => scanStep_inv ctx req hidx (hids e he) hx)

/-- Any choice produced by the full scan points at a candidate index and at
an elevator id of the state. -/
theorem scanAll_inv (ctx : Ctx) (unassigned : List Request) (st : List EState)
    (cand : List ℕ) :
    scanInv cand (st.map EState.eid) (scanAll ctx unassigned st cand) := by
  unfold scanAll
  refine List.foldlRecOn cand (scanCand ctx unassigned st) none ?_ ?_
  · intro c hc; cases hc
  · intro x hx i hi
    exact scanElevs_inv ctx _ st hi (fun e he => List.mem_map_of_mem EState.eid he) hx

/-- The normalised batch cap is always at least one. -/
theorem normBatch_pos (max_batch : ℤ) (numElevators : ℕ) :
    1 ≤ normBatch max_batch numElevators := by
  unfold normBatch
  split_ifs with h <;> omega

/-- A non-empty backlog with a positive cap yields non-empty candidates. -/
theorem stepCandidates_ne_nil (unassigned : List Request) (windowLimit : ℝ)
    (batchLimit : ℕ) (hb : 1 ≤ batchLimit) (hu : unassigned ≠ []) :
    stepCandidates unassigned windowLimit batchLimit ≠ [] := by
  rw [stepCandidates_eq_range unassigned windowLimit batchLimit hb]
  have : unassigned.length ≠ 0 := fun hc => hu (List.length_eq_zero.mp hc)
  simp only [ne_eq, List.range_eq_nil]
  omega

/-- With a non-empty backlog, a positive cap and a non-empty elevator list,
the loop body always takes the winning-pair branch: the scan yields a best
choice and the step pops and commits exactly that choice. -/
theorem mpcStep_eq_commit (ctx : Ctx) (horizon : ℝ) (batchLimit : ℕ)
    (unassigned : List Request) (st : List EState) (hb : 1 ≤ batchLimit)
    (hu : unassigned ≠ []) (hst : st ≠ []) :
    ∃ best : BestChoice,
      scanAll ctx unassigned st
          (stepCandidates unassigned
            ((unassigned.headD dummyRequest).arrival_time + horizon) batchLimit) =
        some best ∧
      mpcStep ctx horizon batchLimit unassigned st =
        (unassigned.eraseIdx best.idx,
          commitAssign st best.eid (unassigned.getD best.idx dummyRequest) best.ftime) := by
  cases unassigned with
  | nil => exact absurd rfl hu
  | cons first rest =>
    have hcand := stepCandidates_ne_nil (first :: rest)
      (first.arrival_time + horizon) batchLimit hb (by simp)
    have hsome := scanAll_isSome ctx (first :: rest) st _ hcand hst
    obtain ⟨best, hbest⟩ := Option.isSome_iff_exists.mp hsome
    refine ⟨best, by simpa using hbest, ?_⟩
    simp only [mpcStep, hbest]

/-- `commitAssign` keeps the elevator ids. -/
theorem commitAssign_ids (st : List EState) (eid : ℕ) (req : Request) (t : ℝ) :
    (commitAssign st eid req t).map EState.eid = st.map EState.eid := by
  induction st with
  | nil => rfl
  | cons e rest ih =>
    simp only [commitAssign]
    split_ifs with h <;> simp [ih]

/-- `commitAssign` keeps the number of elevators. -/
theorem commitAssign_length (st : List EState) (eid : ℕ) (req : Request) (t : ℝ) :
    (commitAssign st eid req t).length = st.length := by
  induction st with
  | nil => rfl
  | cons e rest ih =>
    simp only [commitAssign]
    split_ifs with h <;> simp [ih]

/-- When the target id is present, `commitAssign` adds the request to exactly
one queue. -/
theorem commitAssign_queueMultiset (st : List EState) (eid : ℕ) (req : Request)
    (t : ℝ) (h : eid ∈ st.map EState.eid) :
    queueMultiset (commitAssign st eid req t) = req ::ₘ queueMultiset st := by
  induction st with
  | nil => simp at h
  | cons e rest ih =>
    simp only [commitAssign]
    split_ifs with he
    · simp only [queueMultiset, List.map_cons, List.sum_cons]
      have hq : (↑(e.queue ++ [req]) : Multiset Request) = ↑(req :: e.queue) :=
        Multiset.coe_eq_coe.mpr (List.perm_append_singleton req e.queue)
      rw [hq, ← Multiset.cons_coe, Multiset.cons_add]
    · have hmem : eid ∈ rest.map EState.eid := by
        simp only [List.map_cons, List.mem_cons] at h
        rcases h with h | h
        · exact absurd h.symm he
        · exact h
      simp only [queueMultiset, List.map_cons, List.sum_cons] at ih ⊢
      rw [ih hmem, Multiset.add_cons]

/-- The least-busy selection returns one of the traversed states. -/
theorem foldl_pick_mem (rest : List EState) :
    ∀ b : EState,
      rest.foldl (fun best x => if x.time < best.time then x else best) b ∈
        b :: rest := by
  induction rest with
  | nil => intro b; simp
  | cons x xs ih =>
    intro b
    simp only [List.foldl_cons]
    have h := ih (if x.time < b.time then x else b)
    rcases List.mem_cons.mp h with h1 | h1
    · rw [h1]
      split_ifs <;> simp
    · simp [List.mem_cons.mpr (Or.inr (List.mem_cons.mpr (Or.inr h1)))]

/-- The least-busy fallback target is an id of the state. -/
theorem leastBusy_mem (st : List EState) (hst : st ≠ []) :
    leastBusy st ∈ st.map EState.eid := by
  cases st with
  | nil => exact absurd rfl hst
  | cons e rest =>
    have h := foldl_pick_mem rest e
    exact List.mem_map_of_mem EState.eid h

/-- Removing position `i` and re-consing the element it held is a
permutation of the original list. -/
theorem perm_getD_cons_eraseIdx {α : Type _} (d : α) :
    ∀ (l : List α) (i : ℕ), i < l.length →
      l.Perm (l.getD i d :: l.eraseIdx i) := by
  intro l
  induction l with
  | nil => intro i h; simp at h
  | cons x xs ih =>
    intro i h
    cases i with
    | zero => simp
    | succ n =>
      simp only [List.getD_cons_succ, List.eraseIdx_cons_succ]
      have hn : n < xs.length := by simpa using h
      exact ((ih n hn).cons x).trans (List.Perm.swap (xs.getD n d) x (xs.eraseIdx n))

/-- One loop iteration pops exactly one request, adds it to exactly one
queue, and keeps the elevator ids and count. -/
theorem mpcStep_shrinks (ctx : Ctx) (horizon : ℝ) (batchLimit : ℕ)
    (unassigned : List Request) (st : List EState) (hb : 1 ≤ batchLimit)
    (hu : unassigned ≠ []) (hst : st ≠ []) :
    (mpcStep ctx horizon batchLimit unassigned st).1.length + 1 = unassigned.length ∧
    ((mpcStep ctx horizon batchLimit unassigned st).1 : Multiset Request) +
        queueMultiset (mpcStep ctx horizon batchLimit unassigned st).2 =
      (unassigned : Multiset Request) + queueMultiset st ∧
    (mpcStep ctx horizon batchLimit unassigned st).2.length = st.length := by
  obtain ⟨best, hscan, hstep⟩ :=
    mpcStep_eq_commit ctx horizon batchLimit unassigned st hb hu hst
  have hinv := scanAll_inv ctx unassigned st
    (stepCandidates unassigned ((unassigned.headD dummyRequest).arrival_time + horizon)
      batchLimit) best hscan
  have hidx : best.idx < unassigned.length := by
    have := hinv.1
    rw [stepCandidates_eq_range unassigned _ batchLimit hb] at this
    have := List.mem_range.mp this
    omega
  have heid : best.eid ∈ st.map EState.eid := hinv.2
  have hulen : 1 ≤ unassigned.length := List.length_pos.mpr hu
  rw [hstep]
  refine ⟨?_, ?_, commitAssign_length st best.eid _ best.ftime⟩
  · rw [List.length_eraseIdx]
    rw [if_pos hidx]
    omega
  · rw [commitAssign_queueMultiset st best.eid _ best.ftime heid]
    have hperm : (unassigned : Multiset Request) =
        ↑(unassigned.getD best.idx dummyRequest :: unassigned.eraseIdx best.idx) :=
      Multiset.coe_eq_coe.mpr (perm_getD_cons_eraseIdx dummyRequest unassigned best.idx hidx)
    rw [hperm, ← Multiset.cons_coe, Multiset.cons_add, Multiset.add_cons]

/-- The fuelled loop distributes the whole backlog over the queues and keeps
the elevator count, whenever the fuel covers the backlog. -/
theorem mpcLoop_state (ctx : Ctx) (horizon : ℝ) (batchLimit : ℕ)
    (hb : 1 ≤ batchLimit) :
    ∀ (fuel : ℕ) (u : List Request) (st : List EState),
      u.length ≤ fuel → st ≠ [] →
      queueMultiset (mpcLoop ctx horizon batchLimit fuel u st) =
          queueMultiset st + (u : Multiset Request) ∧
      (mpcLoop ctx horizon batchLimit fuel u st).length = st.length := by
  intro fuel
  induction fuel with
  | zero =>
    intro u st hf hst
    have hu : u = [] := List.length_eq_zero.mp (Nat.le_zero.mp hf)
    subst hu
    simp [mpcLoop]
  | succ n ih =>
    intro u st hf hst
    cases u with
    | nil => simp [mpcLoop]
    | cons first rest =>
      have hstep := mpcStep_shrinks ctx horizon batchLimit (first :: rest) st hb
        (by simp) hst
      have hnext1 : (mpcStep ctx horizon batchLimit (first :: rest) st).1.length ≤ n := by
        have := hstep.1
        simp only [List.length_cons] at this hf
        omega
      have hnext2 : (mpcStep ctx horizon batchLimit (first :: rest) st).2 ≠ [] := by
        apply List.ne_nil_of_length_pos
        rw [hstep.2.2]
        exact List.length_pos.mpr hst
      have hih := ih (mpcStep ctx horizon batchLimit (first :: rest) st).1
        (mpcStep ctx horizon batchLimit (first :: rest) st).2 hnext1 hnext2
      refine ⟨?_, ?_⟩
      · show queueMultiset (mpcLoop ctx horizon batchLimit n
            (mpcStep ctx horizon batchLimit (first :: rest) st).1
            (mpcStep ctx horizon batchLimit (first :: rest) st).2) = _
        rw [hih.1]
        have := hstep.2.1
        have hcomm : queueMultiset (mpcStep ctx horizon batchLimit (first :: rest) st).2 +
            ((mpcStep ctx horizon batchLimit (first :: rest) st).1 : Multiset Request) =
            queueMultiset st + ↑(first :: rest) := by
          rw [add_comm, this, add_comm]
        exact hcomm
      · show (mpcLoop ctx horizon batchLimit n
            (mpcStep ctx horizon batchLimit (first :: rest) st).1
            (mpcStep ctx horizon batchLimit (first :: rest) st).2).length = _
        rw [hih.2, hstep.2.2]

/-- The freshly initialised scheduler state has empty queues. -/
theorem queueMultiset_init (elevators : List ElevatorState) :
    queueMultiset (elevators.map
      (fun e => (⟨e.id, e.floor, 0.0, [], []⟩ : EState))) = 0 := by
  induction elevators with
  | nil => rfl
  | cons e rest ih => simpa [queueMultiset] using ih

/-- The queue-length sum is the cardinality of the queue multiset. -/
theorem queueLenSum_eq_card (st : List EState) :
    queueLenSum st = Multiset.card (queueMultiset st) := by
  induction st with
  | nil => rfl
  | cons e rest ih =>
    simp only [queueLenSum, queueMultiset, List.map_cons, List.sum_cons,
      Multiset.card_add, Multiset.coe_card] at ih ⊢
    omega

/-- `assign_requests_mpc` distributes exactly the input requests over the
queues and returns one state per elevator. -/
theorem assign_queueMultiset (ctx : Ctx) (requests : List Request)
    (elevators : List ElevatorState) (lookahead_window : Option ℝ)
    (max_batch : Option ℤ) (h : elevators ≠ []) :
    queueMultiset (assign_requests_mpc ctx requests elevators lookahead_window
        max_batch) = (requests : Multiset Request) ∧
    (assign_requests_mpc ctx requests elevators lookahead_window max_batch).length =
      elevators.length := by
  cases elevators with
  | nil => exact absurd rfl h
  | cons el els =>
    cases requests with
    | nil =>
      constructor
      · simpa [assign_requests_mpc] using queueMultiset_init (el :: els)
      · simp [assign_requests_mpc]
    | cons r rs =>
      have hb := normBatch_pos ((max_batch.getD MPC_MAX_BATCH)) (el :: els).length
      have hsortlen : (sortByArrival (r :: rs)).length = (r :: rs).length :=
        List.length_mergeSort (r :: rs)
      have hst0 : (el :: els).map
          (fun e => (⟨e.id, e.floor, 0.0, [], []⟩ : EState)) ≠ [] := by simp
      have hloop := mpcLoop_state ctx (lookahead_window.getD MPC_LOOKAHEAD_WINDOW)
        (normBatch (max_batch.getD MPC_MAX_BATCH) (el :: els).length) hb
        (r :: rs).length (sortByArrival (r :: rs))
        ((el :: els).map (fun e => (⟨e.id, e.floor, 0.0, [], []⟩ : EState)))
        (le_of_eq hsortlen) hst0
      constructor
      · show queueMultiset (mpcLoop ctx _ _ (r :: rs).length (sortByArrival (r :: rs))
          ((el :: els).map (fun e => (⟨e.id, e.floor, 0.0, [], []⟩ : EState)))) = _
        rw [hloop.1, queueMultiset_init, zero_add]
        exact Multiset.coe_eq_coe.mpr (List.mergeSort_perm (r :: rs) _)
      · show (mpcLoop ctx _ _ (r :: rs).length (sortByArrival (r :: rs))
          ((el :: els).map (fun e => (⟨e.id, e.floor, 0.0, [], []⟩ : EState)))).length = _
        rw [hloop.2]
        simp

/-- C2: for a non-empty elevator list, the scheduler terminates with each
loop iteration removing exactly one request from the backlog, and on
termination the queues hold exactly the input requests (as a multiset, hence
also by count); with a single elevator its queue length is the request
count. -/
theorem C2_assign_terminates_total (ctx : Ctx) (requests : List Request)
    (elevators : List ElevatorState) (lookahead_window : Option ℝ)
    (max_batch : Option ℤ) (h : elevators ≠ []) :
    (∀ (horizon : ℝ) (batchLimit : ℕ) (u : List Request) (st : List EState),
        1 ≤ batchLimit → u ≠ [] → st ≠ [] →
        (mpcStep ctx horizon batchLimit u st).1.length + 1 = u.length) ∧
    queueMultiset (assign_requests_mpc ctx requests elevators lookahead_window
        max_batch) = (requests : Multiset Request) ∧
    queueLenSum (assign_requests_mpc ctx requests elevators lookahead_window
        max_batch) = requests.length ∧
    ∀ e : ElevatorState,
      ((assign_requests_mpc ctx requests [e] lookahead_window max_batch).headD
          dummyEState).queue.length = requests.length := by
  have hmain := assign_queueMultiset ctx requests elevators lookahead_window max_batch h
  refine ⟨?_, hmain.1, ?_, ?_⟩
  · intro horizon batchLimit u st hb hu hst
    exact (mpcStep_shrinks ctx horizon batchLimit u st hb hu hst).1
  · rw [queueLenSum_eq_card, hmain.1, Multiset.coe_card]
  · intro e
    obtain ⟨hq, hl⟩ := assign_queueMultiset ctx requests [e] lookahead_window max_batch
      (by simp)
    rcases hassign : assign_requests_mpc ctx requests [e] lookahead_window max_batch
      with _ | ⟨s, tail⟩
    · rw [hassign] at hl
      simp at hl
    · rw [hassign] at hl hq
      have htail : tail = [] := by
        simp only [List.length_cons, List.length_singleton, List.length_nil] at hl
        have h0 : tail.length = 0 := by omega
        exact List.length_eq_zero.mp h0
      subst htail
      have hcard := congrArg Multiset.card hq
      simp only [queueMultiset, List.map_cons, List.map_nil, List.sum_cons,
        List.sum_nil, add_zero, Multiset.coe_card] at hcard
      simpa [hassign] using hcard

/-- C2 witness: one elevator, an empty request list. -/
theorem C2_assign_witness :
    ([(⟨0, 0⟩ : ElevatorState)] ≠ []) ∧
    queueMultiset (assign_requests_mpc ctxUnit [] [⟨0, 0⟩] none none) =
      (([] : List Request) : Multiset Request) := by
  refine ⟨by simp, ?_⟩
  exact (C2_assign_terminates_total ctxUnit [] [⟨0, 0⟩] none none (by simp)).2.1

/-- C10: `_estimate_incremental_cost` produces a triple for every plan and
request (its `None` branch is dead), so whenever the backlog and elevator
list are non-empty the scan sets a best choice and the loop body always
takes the winning-pair branch — the least-busy fallback is unreachable. -/
theorem C10_estimate_never_none (ctx : Ctx) :
    (∀ (plan : PlanState) (request : Request), ∃ t : ℝ × ℝ × ℝ,
        _estimate_incremental_cost ctx plan request = some t) ∧
    ∀ (horizon : ℝ) (batchLimit : ℕ) (unassigned : List Request) (st : List EState),
      1 ≤ batchLimit → unassigned ≠ [] → st ≠ [] →
      ∃ best : BestChoice,
        scanAll ctx unassigned st
            (stepCandidates unassigned
              ((unassigned.headD dummyRequest).arrival_time + horizon) batchLimit) =
          some best ∧
        mpcStep ctx horizon batchLimit unassigned st =
          (unassigned.eraseIdx best.idx,
            commitAssign st best.eid (unassigned.getD best.idx dummyRequest)
              best.ftime) := by
  constructor
  · intro plan request
    exact ⟨_, rfl⟩
  · intro horizon batchLimit unassigned st hb hu hst
    exact mpcStep_eq_commit ctx horizon batchLimit unassigned st hb hu hst

/-- C10 witness: a singleton backlog and a single elevator state. -/
theorem C10_estimate_witness :
    (∃ t : ℝ × ℝ × ℝ,
        _estimate_incremental_cost ctxUnit ⟨0, 0⟩ reqUnit = some t) ∧
    1 ≤ 1 ∧ ([reqUnit] ≠ []) ∧ ([dummyEState] ≠ []) ∧
    ∃ best : BestChoice,
      scanAll ctxUnit [reqUnit] [dummyEState]
          (stepCandidates [reqUnit]
            (([reqUnit].headD dummyRequest).arrival_time + 0) 1) = some best ∧
      mpcStep ctxUnit 0 1 [reqUnit] [dummyEState] =
        ([reqUnit].eraseIdx best.idx,
          commitAssign [dummyEState] best.eid ([reqUnit].getD best.idx dummyRequest)
            best.ftime) :=
  ⟨(C10_estimate_never_none ctxUnit).1 ⟨0, 0⟩ reqUnit, le_refl 1, by simp, by simp,
    (C10_estimate_never_none ctxUnit).2 0 1 [reqUnit] [dummyEState] (le_refl 1)
      (by simp) (by simp)⟩

/-- A zero-distance motion takes zero time. -/
theorem motionTime_zero (v A D : ℝ) (hv : 0 ≤ v) : motionTime v A D 0 = 0 := by
  simp [motionTime, hv]

/-- Positive distance takes positive time (for positive profile parameters). -/
theorem motionTime_pos (v A D d : ℝ) (hv : 0 < v) (hA : 0 < A) (hD : 0 < D)
    (hd : 0 < d) : 0 < motionTime v A D d := by
  have harg : 0 < 2 * d * A * D / (A + D) := by positivity
  have hpeak : 0 < Real.sqrt (2 * d * A * D / (A + D)) := Real.sqrt_pos.mpr harg
  simp only [motionTime]
  split_ifs with h
  · have hk : 0 < 1 / A + 1 / D := by positivity
    exact mul_pos hpeak hk
  · have h1 : 0 < v / A := div_pos hv hA
    have h2 : 0 < v / D := div_pos hv hD
    have h3 : 0 ≤ max (d - v ^ 2 / (2 * A) - v ^ 2 / (2 * D)) 0 / v :=
      div_nonneg (le_max_right _ 0) hv.le
    linarith

/-- Motion time is monotone in the distance, across the profile switch. -/
theorem motionTime_mono (v A D : ℝ) (hv : 0 < v) (hA : 0 < A) (hD : 0 < D)
    {d1 d2 : ℝ} (h1 : 0 ≤ d1) (h12 : d1 ≤ d2) :
    motionTime v A D d1 ≤ motionTime v A D d2 := by
  have hpeak1 : (0:ℝ) ≤ Real.sqrt (2 * d1 * A * D / (A + D)) := Real.sqrt_nonneg _
  have hpmono : Real.sqrt (2 * d1 * A * D / (A + D)) ≤
      Real.sqrt (2 * d2 * A * D / (A + D)) := by
    gcongr
  have hk : (0:ℝ) ≤ 1 / A + 1 / D := by positivity
  simp only [motionTime]
  split_ifs with ha hb hb
  · exact mul_le_mul_of_nonneg_right hpmono hk
  · have hstep : Real.sqrt (2 * d1 * A * D / (A + D)) * (1 / A + 1 / D) ≤
        v * (1 / A + 1 / D) := mul_le_mul_of_nonneg_right ha hk
    have hexp : v * (1 / A + 1 / D) = v / A + v / D := by ring
    have hmax : 0 ≤ max (d2 - v ^ 2 / (2 * A) - v ^ 2 / (2 * D)) 0 / v :=
      div_nonneg (le_max_right _ 0) hv.le
    linarith
  · exact absurd (le_trans hpmono hb) ha
  · have hmaxmono : max (d1 - v ^ 2 / (2 * A) - v ^ 2 / (2 * D)) 0 / v ≤
        max (d2 - v ^ 2 / (2 * A) - v ^ 2 / (2 * D)) 0 / v := by
      gcongr
    linarith

/-- Exponential interpolation towards a positive full extreme from an at
least as large empty extreme is positive everywhere. -/
theorem interp_pos {fullv emptyv x : ℝ} (hf : 0 < fullv)
    (hd : 0 ≤ emptyv - fullv) : 0 < fullv + (emptyv - fullv) * Real.exp x := by
  nlinarith [Real.exp_pos x]

/-- `vmax_up` is positive at the `config.py` constants, for every load. -/
theorem vmax_up_pos_default (load : ℝ) : 0 < vmax_up defaultKin load := by
  apply interp_pos <;> norm_num [defaultKin]

/-- `vmax_down` is positive at the `config.py` constants, for every load. -/
theorem vmax_down_pos_default (load : ℝ) : 0 < vmax_down defaultKin load := by
  apply interp_pos <;> norm_num [defaultKin]

/-- `acc` is positive at the `config.py` constants, for every load. -/
theorem acc_pos_default (load : ℝ) : 0 < acc defaultKin load := by
  apply interp_pos <;> norm_num [defaultKin]

/-- `dec` is positive at the `config.py` constants, for every load. -/
theorem dec_pos_default (load : ℝ) : 0 < dec defaultKin load := by
  apply interp_pos <;> norm_num [defaultKin]

/-- The direction-selected maximum velocity is positive at the `config.py`
constants. -/
theorem vmaxSel_pos_default (load : ℝ) (dir : Dir) :
    0 < (match dir with
          | Dir.up => vmax_up defaultKin load
          | Dir.down => vmax_down defaultKin load) := by
  cases dir
  · exact vmax_up_pos_default load
  · exact vmax_down_pos_default load

/-- C6: at the `config.py` constants, for every load in `[0, capacity]`:
zero-distance trips take zero time, travel time is monotone non-decreasing in
the floor distance among trips of one direction (across the
triangular/trapezoidal switch), and positive whenever the floors differ. -/
theorem C6_travel_time_basic (load : ℝ) (h0 : 0 ≤ load)
    (hcap : load ≤ defaultKin.capacity) :
    (∀ x : ℤ, travel_time defaultKin load x x = 0) ∧
    (∀ o1 d1 o2 d2 : ℤ, tripDir o1 d1 = tripDir o2 d2 →
        |d1 - o1| ≤ |d2 - o2| →
        travel_time defaultKin load o1 d1 ≤ travel_time defaultKin load o2 d2) ∧
    (∀ o d : ℤ, o ≠ d → 0 < travel_time defaultKin load o d) := by
  refine ⟨?_, ?_, ?_⟩
  · intro x
    have hdist : |(x : ℝ) - (x : ℝ)| * defaultKin.floorHeight = 0 := by
      simp
    simp only [travel_time, hdist]
    exact motionTime_zero _ _ _ (vmaxSel_pos_default load (tripDir x x)).le
  · intro o1 d1 o2 d2 hdir hdist
    have hd1 : (0:ℝ) ≤ |(d1 : ℝ) - (o1 : ℝ)| * defaultKin.floorHeight :=
      mul_nonneg (abs_nonneg _) (by norm_num [defaultKin])
    have hdcast : |(d1 : ℝ) - (o1 : ℝ)| ≤ |(d2 : ℝ) - (o2 : ℝ)| := by
      have h1 : ((|d1 - o1| : ℤ) : ℝ) ≤ ((|d2 - o2| : ℤ) : ℝ) := by
        exact_mod_cast hdist
      push_cast at h1
      exact h1
    have hdistR : |(d1 : ℝ) - (o1 : ℝ)| * defaultKin.floorHeight ≤
        |(d2 : ℝ) - (o2 : ℝ)| * defaultKin.floorHeight := by
      have hfh : (0:ℝ) ≤ defaultKin.floorHeight := by norm_num [defaultKin]
      exact mul_le_mul_of_nonneg_right hdcast hfh
    simp only [travel_time, hdir]
    exact motionTime_mono _ _ _ (vmaxSel_pos_default load (tripDir o2 d2))
      (acc_pos_default load) (dec_pos_default load) hd1 hdistR
  · intro o d hod
    have hne : (d : ℝ) - (o : ℝ) ≠ 0 := by
      have : (d : ℝ) ≠ (o : ℝ) := by exact_mod_cast (Ne.symm hod)
      exact sub_ne_zero.mpr this
    have hdist : 0 < |(d : ℝ) - (o : ℝ)| * defaultKin.floorHeight := by
      have h1 : 0 < |(d : ℝ) - (o : ℝ)| := abs_pos.mpr hne
      have h2 : (0:ℝ) < defaultKin.floorHeight := by norm_num [defaultKin]
      exact mul_pos h1 h2
    simp only [travel_time]
    exact motionTime_pos _ _ _ _ (vmaxSel_pos_default load (tripDir o d))
      (acc_pos_default load) (dec_pos_default load) hdist

/-- C6 witness: load 0 is in range and a trip from floor 3 to itself takes
zero time. -/
theorem C6_travel_time_witness :
    (0:ℝ) ≤ 0 ∧ (0:ℝ) ≤ defaultKin.capacity ∧
    travel_time defaultKin 0 3 3 = 0 :=
  ⟨le_refl 0, by norm_num [defaultKin],
    (C6_travel_time_basic 0 (le_refl 0) (by norm_num [defaultKin])).1 3⟩

/-- Evaluation of `motionTime` in the triangular branch, at a distance whose
peak speed is the given square root. -/
theorem motionTime_eval_tri (v A D d p : ℝ) (hp : 0 ≤ p)
    (hsq : p ^ 2 = 2 * d * A * D / (A + D)) (hle : p ≤ v) :
    motionTime v A D d = p * (1 / A + 1 / D) := by
  simp only [motionTime, ← hsq, Real.sqrt_sq hp]
  exact if_pos hle

/-- Evaluation of `motionTime` in the trapezoidal branch. -/
theorem motionTime_eval_trap (v A D d p : ℝ) (hp : 0 ≤ p)
    (hsq : p ^ 2 = 2 * d * A * D / (A + D)) (hgt : v < p) :
    motionTime v A D d =
      v / A + v / D + max (d - v ^ 2 / (2 * A) - v ^ 2 / (2 * D)) 0 / v := by
  simp only [motionTime, ← hsq, Real.sqrt_sq hp]
  exact if_neg (not_le.mpr hgt)

/-- At the counterexample configuration, the code's travel time for the
one-floor downward trip at load 0 is 5/4 seconds (triangular profile with
acceleration 2 from the up pair and deceleration 8 from the down pair). -/
theorem travel_time_kinC1_down : travel_time kinC1 0 1 0 = 1.25 := by
  have hdir : tripDir 1 0 = Dir.down := by decide
  have hvd : vmax_down kinC1 0 = 2 := by norm_num [vmax_down, kinC1]
  have hacc : acc kinC1 0 = 2 := by norm_num [acc, kinC1]
  have hdec : dec kinC1 0 = 8 := by norm_num [dec, kinC1]
  have hdist : |((0:ℤ) : ℝ) - ((1:ℤ) : ℝ)| * kinC1.floorHeight = 1.25 := by
    norm_num [kinC1]
  simp only [travel_time, hdir, hdist, hvd, hacc, hdec]
  rw [motionTime_eval_tri 2 2 8 1.25 2 (by norm_num) (by norm_num) (by norm_num)]
  norm_num

/-- At the counterexample configuration, the travel time described by the
claim for the same trip is 7/8 seconds (trapezoidal profile with
acceleration and deceleration both 8 from the down pair). -/
theorem claimedTravelTime_kinC1_down : claimedTravelTime kinC1 0 1 0 = 0.875 := by
  have hdir : tripDir 1 0 = Dir.down := by decide
  have hcvm : claimedVmax kinC1 Dir.down 0 = 2 := by norm_num [claimedVmax, kinC1]
  have hcad : claimedAccDec kinC1 Dir.down 0 = 8 := by norm_num [claimedAccDec, kinC1]
  have hdist : |((0:ℤ) : ℝ) - ((1:ℤ) : ℝ)| * kinC1.floorHeight = 1.25 := by
    norm_num [kinC1]
  have hsq : Real.sqrt 10 ^ 2 = 2 * 1.25 * 8 * 8 / (8 + 8) := by
    rw [Real.sq_sqrt (by norm_num : (0:ℝ) ≤ 10)]
    norm_num
  have hgt : (2:ℝ) < Real.sqrt 10 :=
    (Real.lt_sqrt (by norm_num)).mpr (by norm_num)
  simp only [claimedTravelTime, hdir, hdist, hcvm, hcad]
  rw [motionTime_eval_trap 2 8 8 1.25 (Real.sqrt 10) (Real.sqrt_nonneg 10) hsq hgt]
  rw [max_eq_left (by norm_num : (0:ℝ) ≤ 1.25 - (2:ℝ) ^ 2 / (2 * 8) - (2:ℝ) ^ 2 / (2 * 8))]
  norm_num

/-- C1 counterexample: the claim fails.  At `kinC1`, load 0 (within
capacity) and the downward trip from floor 1 to floor 0, the code computes
5/4 seconds while the direction-selected interpolation of the claim computes
7/8 seconds, because the source's `acc` always uses the up-direction
acceleration pair regardless of trip direction. -/
theorem C1_counterexample_direction : ¬ C1Claim := by
  intro h
  have hc := h kinC1 0 1 0 (le_refl 0) (by norm_num [kinC1]) (by decide)
  rw [travel_time_kinC1_down, claimedTravelTime_kinC1_down] at hc
  norm_num at hc

/-- C1 (amended): for every configuration, load in range and distinct pair of
floors, the maximum velocity interpolates between the direction-selected
empty/full pair, while the acceleration always interpolates between the
up-direction acceleration extremes and the deceleration always between the
down-direction deceleration extremes, regardless of the trip direction. -/
theorem C1_amended_interpolation (k : KinConfig) (load : ℝ) (o d : ℤ)
    (h0 : 0 ≤ load) (hcap : load ≤ k.capacity) (hod : o ≠ d) :
    travel_time k load o d = amendedTravelTime k load o d := by
  simp only [travel_time, amendedTravelTime, amendedAcc, amendedDec, acc, dec]
  cases htd : tripDir o d <;>
    simp [htd, claimedVmax, vmax_up, vmax_down]

/-- C1 witness: the amended description matched at the `config.py` constants
for a loaded one-floor downward trip. -/
theorem C1_amended_witness :
    (0:ℝ) ≤ 100 ∧ (100:ℝ) ≤ defaultKin.capacity ∧ (1:ℤ) ≠ 0 ∧
    travel_time defaultKin 100 1 0 = amendedTravelTime defaultKin 100 1 0 :=
  ⟨by norm_num, by norm_num [defaultKin], by decide,
    C1_amended_interpolation defaultKin 100 1 0 (by norm_num)
      (by norm_num [defaultKin]) (by decide)⟩

/-- The clamped scale is positive. -/
theorem effScale_pos (oc : ObjConfig) : 0 < effScale oc :=
  lt_of_lt_of_le (by norm_num) (le_max_right oc.scale 1e-6)

/-- The clamped exponent is at least one. -/
theorem effExponent_ge_one (oc : ObjConfig) : 1 ≤ effExponent oc :=
  le_max_right oc.exponent 1

/-- The clamped threshold is non-negative. -/
theorem effThreshold_nonneg (oc : ObjConfig) : 0 ≤ effThreshold oc :=
  le_max_right oc.threshold 0

/-- Closed form of `wait_penalty` above the threshold. -/
theorem wait_penalty_closed (oc : ObjConfig) {w : ℝ} (hw : effThreshold oc < w) :
    wait_penalty oc w = effThreshold oc + (w - effThreshold oc) +
      (w - effThreshold oc) ^ (effExponent oc + 1) / effScale oc ^ effExponent oc := by
  have ht0 := effThreshold_nonneg oc
  have hw0 : 0 < w := lt_of_le_of_lt ht0 hw
  have hx : 0 < w - effThreshold oc := sub_pos.mpr hw
  simp only [wait_penalty, if_neg (not_le.mpr hw0), if_neg (not_le.mpr hw)]
  have hdiv : ((w - effThreshold oc) / effScale oc) ^ effExponent oc =
      (w - effThreshold oc) ^ effExponent oc / effScale oc ^ effExponent oc :=
    Real.div_rpow hx.le (effScale_pos oc).le _
  have hpow : (w - effThreshold oc) ^ (effExponent oc + 1) =
      (w - effThreshold oc) ^ effExponent oc * (w - effThreshold oc) := by
    rw [Real.rpow_add hx, Real.rpow_one]
  rw [hdiv, hpow]
  ring

/-- C5: `wait_penalty` vanishes on non-positive waits, is the identity on
`[0, threshold]` for the effective (clamped) threshold, and is strictly
increasing and convex beyond the threshold, the clamped exponent being at
least one and the clamped scale positive. -/
theorem C5_wait_penalty_shape (oc : ObjConfig) :
    (∀ w : ℝ, w ≤ 0 → wait_penalty oc w = 0) ∧
    (∀ w : ℝ, 0 ≤ w → w ≤ effThreshold oc → wait_penalty oc w = w) ∧
    StrictMonoOn (wait_penalty oc) (Set.Ioi (effThreshold oc)) ∧
    ConvexOn ℝ (Set.Ioi (effThreshold oc)) (wait_penalty oc) := by
  have ht0 := effThreshold_nonneg oc
  have he1 := effExponent_ge_one oc
  have hs0 := effScale_pos oc
  have hsp : 0 < effScale oc ^ effExponent oc :=
    Real.rpow_pos_of_pos hs0 _
  refine ⟨?_, ?_, ?_, ?_⟩
  · intro w hw
    simp [wait_penalty, hw]
  · intro w hw0 hwt
    simp only [wait_penalty]
    split_ifs with h1
    · exact (le_antisymm h1 hw0).symm
    · rfl
  · intro x hx y hy hxy
    simp only [Set.mem_Ioi] at hx hy
    rw [wait_penalty_closed oc hx, wait_penalty_closed oc hy]
    have hxt : 0 < x - effThreshold oc := sub_pos.mpr hx
    have hpow : (x - effThreshold oc) ^ (effExponent oc + 1) ≤
        (y - effThreshold oc) ^ (effExponent oc + 1) :=
      Real.rpow_le_rpow hxt.le (by linarith) (by linarith)
    have hdl : (x - effThreshold oc) ^ (effExponent oc + 1) /
        effScale oc ^ effExponent oc ≤
        (y - effThreshold oc) ^ (effExponent oc + 1) /
          effScale oc ^ effExponent oc := by gcongr
    linarith
  · refine ⟨convex_Ioi _, ?_⟩
    intro x hx y hy a b ha hb hab
    have hzmem := (convex_Ioi (effThreshold oc)) hx hy ha hb hab
    simp only [Set.mem_Ioi, smul_eq_mul] at hx hy hzmem
    simp only [smul_eq_mul]
    rw [wait_penalty_closed oc hx, wait_penalty_closed oc hy,
      wait_penalty_closed oc hzmem]
    have hp1 : 1 ≤ effExponent oc + 1 := by linarith
    have hkey := (convexOn_rpow hp1).2
      (Set.mem_Ici.mpr (sub_nonneg.mpr hx.le))
      (Set.mem_Ici.mpr (sub_nonneg.mpr hy.le)) ha hb hab
    simp only [smul_eq_mul] at hkey
    have hzt : a * x + b * y - effThreshold oc =
        a * (x - effThreshold oc) + b * (y - effThreshold oc) := by
      linear_combination effThreshold oc * hab
    rw [← hzt] at hkey
    have hdl : (a * x + b * y - effThreshold oc) ^ (effExponent oc + 1) /
        effScale oc ^ effExponent oc ≤
        (a * (x - effThreshold oc) ^ (effExponent oc + 1) +
            b * (y - effThreshold oc) ^ (effExponent oc + 1)) /
          effScale oc ^ effExponent oc := by gcongr
    have hsplit : (a * (x - effThreshold oc) ^ (effExponent oc + 1) +
          b * (y - effThreshold oc) ^ (effExponent oc + 1)) /
        effScale oc ^ effExponent oc =
        a * ((x - effThreshold oc) ^ (effExponent oc + 1) /
            effScale oc ^ effExponent oc) +
          b * ((y - effThreshold oc) ^ (effExponent oc + 1) /
            effScale oc ^ effExponent oc) := by ring
    rw [hsplit] at hdl
    have hexpand : a * (effThreshold oc + (x - effThreshold oc) +
          (x - effThreshold oc) ^ (effExponent oc + 1) /
            effScale oc ^ effExponent oc) +
        b * (effThreshold oc + (y - effThreshold oc) +
          (y - effThreshold oc) ^ (effExponent oc + 1) /
            effScale oc ^ effExponent oc) =
        (a * effThreshold oc + b * effThreshold oc) +
          (a * (x - effThreshold oc) + b * (y - effThreshold oc)) +
          (a * ((x - effThreshold oc) ^ (effExponent oc + 1) /
              effScale oc ^ effExponent oc) +
            b * ((y - effThreshold oc) ^ (effExponent oc + 1) /
              effScale oc ^ effExponent oc)) := by ring
    have htab : a * effThreshold oc + b * effThreshold oc = effThreshold oc := by
      linear_combination effThreshold oc * hab
    rw [hexpand, htab, ← hzt]
    linarith

/-- C5 witness: at a threshold of 10, the penalty vanishes at `-1`, is the
identity at `5`, and strictly increases from `12` to `13`. -/
theorem C5_wait_penalty_witness :
    ((-1 : ℝ) ≤ 0 ∧ wait_penalty objTen (-1) = 0) ∧
    ((0 : ℝ) ≤ 5 ∧ (5 : ℝ) ≤ effThreshold objTen ∧ wait_penalty objTen 5 = 5) ∧
    ((12 : ℝ) ∈ Set.Ioi (effThreshold objTen) ∧
      (13 : ℝ) ∈ Set.Ioi (effThreshold objTen) ∧ (12 : ℝ) < 13 ∧
      wait_penalty objTen 12 < wait_penalty objTen 13) := by
  have h12 : (12 : ℝ) ∈ Set.Ioi (effThreshold objTen) := by
    simp [effThreshold, objTen]
    norm_num
  have h13 : (13 : ℝ) ∈ Set.Ioi (effThreshold objTen) := by
    simp [effThreshold, objTen]
    norm_num
  refine ⟨⟨by norm_num, (C5_wait_penalty_shape objTen).1 (-1) (by norm_num)⟩,
    ⟨by norm_num, by norm_num [effThreshold, objTen],
      (C5_wait_penalty_shape objTen).2.1 5 (by norm_num)
        (by norm_num [effThreshold, objTen])⟩,
    ⟨h12, h13, by norm_num,
      (C5_wait_penalty_shape objTen).2.2.1 h12 h13 (by norm_num)⟩⟩

/-- C3: with at least one valid request, the saturated branch (arrival rate
at or above the fleet service capacity) makes `wait_avg` exactly the clamped
average service time, and the total wait penalty is non-negative in all
cases (finiteness is inherent to the real-valued model, the source's
`isfinite` clamp never fires). -/
theorem C3_saturated_wait_bound (ctx : Ctx) (requests : List Request)
    (h : 1 ≤ nr requests) :
    (service_capacity ctx requests ≤ arrival_rate ctx requests →
      wait_avg ctx requests = tau_bar ctx requests) ∧
    0 ≤ limitWaitPenalty ctx requests := by
  constructor
  · intro hsat
    have hne : ¬ nr requests = 0 := by omega
    simp only [wait_avg, if_neg hne, if_pos hsat]
  · simp only [limitWaitPenalty]
    split_ifs with h1
    · norm_num
    · push_neg at h1
      obtain ⟨hn0, hpos⟩ := h1
      apply mul_nonneg (Nat.cast_nonneg _)
      have hext : 0 ≤ extraTerm ctx requests := by
        simp only [extraTerm]
        split_ifs with h2
        · norm_num
        · exact not_lt.mp h2
      linarith

/-- The ideal one-floor trip of the witness context takes 4 seconds. -/
theorem travel_time_unit : travel_time kinUnit 0 0 1 = 4 := by
  have hdir : tripDir 0 1 = Dir.up := by decide
  have hvu : vmax_up kinUnit 0 = 3 := by norm_num [vmax_up, kinUnit]
  have hacc : acc kinUnit 0 = 1 := by norm_num [acc, kinUnit]
  have hdec : dec kinUnit 0 = 1 := by norm_num [dec, kinUnit]
  have hdist : |((1:ℤ) : ℝ) - ((0:ℤ) : ℝ)| * kinUnit.floorHeight = 4 := by
    norm_num [kinUnit]
  simp only [travel_time, hdir, hdist, hvu, hacc, hdec]
  rw [motionTime_eval_tri 3 1 1 4 2 (by norm_num) (by norm_num) (by norm_num)]
  norm_num

/-- The witness request set has one valid request of duration 4. -/
theorem durations_unit : durations ctxUnit [reqUnit] = [4] := by
  have h1 : valid_requests [reqUnit] = [reqUnit] := rfl
  simp only [durations, h1, List.map_cons, List.map_nil]
  have h2 : travel_time ctxUnit.kin reqUnit.load reqUnit.origin reqUnit.destination = 4 :=
    travel_time_unit
  rw [h2]

/-- The clamped average service time of the witness is 4 seconds. -/
theorem tau_bar_unit : tau_bar ctxUnit [reqUnit] = 4 := by
  simp only [tau_bar, tau_bar0, durations_unit, show nr [reqUnit] = 1 from rfl]
  rw [if_neg (by simp : ¬([4] : List ℝ) = [])]
  norm_num

/-- The arrival rate of the witness is one request per 4 seconds. -/
theorem arrival_rate_unit : arrival_rate ctxUnit [reqUnit] = 1 / 4 := by
  simp only [arrival_rate, horizonEff, show nr [reqUnit] = 1 from rfl,
    show ctxUnit.simTimeHorizon = (4:ℝ) from rfl]
  norm_num

/-- The fleet service capacity of the witness is one request per 4 seconds. -/
theorem service_capacity_unit : service_capacity ctxUnit [reqUnit] = 1 / 4 := by
  simp only [service_capacity, elevCountEff, tau_bar_unit,
    show ctxUnit.elevatorCount = (1:ℤ) from rfl]
  norm_num

/-- C3 witness: a single 4-second request against a 4-second horizon
saturates the queue, so `wait_avg` collapses to the 4-second `tau_bar`. -/
theorem C3_saturated_witness :
    1 ≤ nr [reqUnit] ∧
    service_capacity ctxUnit [reqUnit] ≤ arrival_rate ctxUnit [reqUnit] ∧
    wait_avg ctxUnit [reqUnit] = tau_bar ctxUnit [reqUnit] ∧
    0 ≤ limitWaitPenalty ctxUnit [reqUnit] := by
  have hnr : 1 ≤ nr [reqUnit] := by
    rw [show nr [reqUnit] = 1 from rfl]
  have hsat : service_capacity ctxUnit [reqUnit] ≤ arrival_rate ctxUnit [reqUnit] := by
    rw [service_capacity_unit, arrival_rate_unit]
  exact ⟨hnr, hsat, (C3_saturated_wait_bound ctxUnit [reqUnit] hnr).1 hsat,
    (C3_saturated_wait_bound ctxUnit [reqUnit] hnr).2⟩

end FloorCast
